import Mathlib

/-!
Verification of the cohort bracket-distribution and CAC-attribution core of
the time-to-hire app (`src/app.py`).

Modelling conventions.  Every date in the core is first truncated to its
calendar month (`dt.to_period("M").dt.to_timestamp()` in the source), so a
date is embedded as its absolute month index: an `Int` equal to
`12 * year + (monthOfYear - 1)`.  Adding `pd.DateOffset(months = k)` to a
month-truncated timestamp is then integer addition of `k`, comparison of
month timestamps is integer comparison, and the calendar month-name
(`strftime("%b")`) of index `m` is `month_lookup[m % 12]` with `0 = Jan`.
Python float arithmetic is embedded as exact rational arithmetic over `ℚ`.
-/

/-- Row of the filtered application table.  `application_month` is the month
index of `application_date` (never null, filtered upstream);
`hire_month` is the month index of `successful_date`, `none` when the
applicant was never hired. -/
structure ApplicationRecord where
  application_month : Int
  hire_month : Option Int
  deriving DecidableEq

/-- Month index of the hire date of a record known to be hired
(the source only reads `hire_month` after dropping the null rows). -/
def hireD (r : ApplicationRecord) : Int := r.hire_month.getD 0

/-- Rows with a non-null `successful_date`
(`df[df['successful_date'].notna()]` in `compute_time_to_hire`). -/
def hired (rs : List ApplicationRecord) : List ApplicationRecord :=
  rs.filter (fun r => r.hire_month.isSome)

/-- Denominator `total_hires = len(df)` after the notna filter. -/
def total_hires (rs : List ApplicationRecord) : Nat := (hired rs).length

/-- Keys of `df.groupby('application_month')`: the distinct application
months of the hired rows. -/
def cohortKeys (rs : List ApplicationRecord) : List Int :=
  (rs.map (fun r => r.application_month)).dedup

/-- Count of rows of `g` whose hire month lies in `[s, e)`
(`group[(group['hire_month'] >= start) & (group['hire_month'] < end)].shape[0]`). -/
def windowCount (g : List ApplicationRecord) (s e : Int) : Nat :=
  (g.filter (fun r => decide (s ≤ hireD r ∧ hireD r < e))).length

/-- Accumulated `bracket_counts[k]`: over each cohort group, the count of its
rows whose hire month falls in `[c + k, c + (k + 1))`. -/
def bracket_count (rs : List ApplicationRecord) (k : Nat) : Nat :=
  ((cohortKeys (hired rs)).map (fun c =>
    windowCount ((hired rs).filter (fun r => decide (r.application_month = c)))
      (c + (k : Int)) (c + ((k : Int) + 1)))).sum

/-- Shallow embedding of `compute_time_to_hire(df, num_months)`
(src/app.py lines 69-81): the list
`[(c / total_hires if total_hires > 0 else 0) for c in bracket_counts]`. -/
def compute_time_to_hire (rs : List ApplicationRecord) (num_months : Nat) : List ℚ :=
  (List.range num_months).map (fun k =>
    if 0 < total_hires rs then (bracket_count rs k : ℚ) / (total_hires rs : ℚ) else 0)

-- Scenario A input: 10 January applications, 4 hired the following February,
-- 6 never hired (January = month index 0, February = 1).
def scenarioA : List ApplicationRecord :=
  List.replicate 4 ⟨0, some 1⟩ ++ List.replicate 6 ⟨0, none⟩

/-- Bracket distribution written from the spec text of §4.2: discard null
hire dates, group by application month, count per cohort and offset over the
half-open window, divide by `totalHires` (zero when `totalHires == 0`). -/
def computeBrackets_spec (rs : List ApplicationRecord) (horizon : Nat) : List ℚ :=
  let remaining := rs.filter (fun r => r.hire_month.isSome)
  let totalHires := remaining.length
  let keys := (remaining.map (fun r => r.application_month)).dedup
  (List.range horizon).map (fun (k : Nat) =>
    let acc := (keys.map (fun c =>
      (remaining.filter (fun r => decide (r.application_month = c))).countP
        (fun r => decide (c + (k : Int) ≤ hireD r ∧ hireD r < c + (k : Int) + 1)))).sum
    if totalHires = 0 then 0 else (acc : ℚ) / (totalHires : ℚ))

lemma countP_ext {α : Type} (l : List α) (p q : α → Bool) (h : ∀ a ∈ l, p a = q a) :
    l.countP p = l.countP q := by
  induction l with
  | nil => rfl
  | cons a t ih =>
    have ha := h a (List.mem_cons_self a t)
    have ht : ∀ b ∈ t, p b = q b := fun b hb => h b (List.mem_cons_of_mem a hb)
    simp [List.countP_cons, ha, ih ht]

lemma countP_or_disjoint {α : Type} (l : List α) (p q : α → Bool)
    (h : ∀ a ∈ l, p a = true → q a = false) :
    l.countP (fun a => p a || q a) = l.countP p + l.countP q := by
  induction l with
  | nil => rfl
  | cons a t ih =>
    have ht : ∀ b ∈ t, p b = true → q b = false :=
      fun b hb => h b (List.mem_cons_of_mem a hb)
    by_cases hp : p a
    · have hq := h a (List.mem_cons_self a t) hp
      simp [List.countP_cons, hp, hq, ih ht]
      omega
    · simp only [Bool.not_eq_true] at hp
      by_cases hq : q a
      all_goals simp [List.countP_cons, hp, hq, ih ht]
      all_goals omega

lemma partition_countP {α : Type} (ks : List Int) (hnd : ks.Nodup)
    (g : List α) (key : α → Int) (q : α → Bool) :
    (ks.map (fun c => g.countP (fun r => decide (key r = c) && q r))).sum
      = g.countP (fun r => decide (key r ∈ ks) && q r) := by
  induction ks with
  | nil => simp
  | cons c ks ih =>
    rw [List.nodup_cons] at hnd
    rw [List.map_cons, List.sum_cons, ih hnd.2]
    rw [← countP_or_disjoint g (fun r => decide (key r = c) && q r)
      (fun r => decide (key r ∈ ks) && q r)
      (by
        intro a _ h1
        simp only [Bool.and_eq_true, decide_eq_true_eq] at h1
        simp only [Bool.and_eq_false_iff, decide_eq_false_iff_not]
        exact Or.inl (h1.1 ▸ hnd.1))]
    apply countP_ext
    intro a _
    by_cases h1 : key a = c <;> by_cases h2 : key a ∈ ks <;> by_cases h3 : q a <;>
      simp [h1, h2, h3]

lemma countP_of_mem_all {α : Type} (g : List α) (key : α → Int) (q : α → Bool)
    (ks : List Int) (hall : ∀ a ∈ g, key a ∈ ks) :
    g.countP (fun r => decide (key r ∈ ks) && q r) = g.countP q :=
  countP_ext _ _ _ (fun a ha => by simp [hall a ha])

/-- The grouped accumulation of the source collapses to a single pass: bracket
`k` counts the hired rows whose hire month is exactly `k` months after their
application month. -/
lemma bracket_count_eq_countP (rs : List ApplicationRecord) (k : Nat) :
    bracket_count rs k
      = (hired rs).countP
          (fun r => decide (hireD r = r.application_month + (k : Int))) := by
  unfold bracket_count windowCount cohortKeys
  have h1 : ∀ c : Int,
      (((hired rs).filter (fun r => decide (r.application_month = c))).filter
        (fun r => decide (c + (k : Int) ≤ hireD r ∧ hireD r < c + ((k : Int) + 1)))).length
      = (hired rs).countP (fun r => decide (r.application_month = c) &&
          decide (hireD r = r.application_month + (k : Int))) := by
    intro c
    rw [← List.countP_eq_length_filter, List.countP_filter]
    apply countP_ext
    intro a _
    by_cases hc : a.application_month = c
    · have hd : (decide (a.application_month = c)) = true := decide_eq_true hc
      simp only [hd, Bool.and_true, Bool.true_and]
      rw [hc]
      exact decide_eq_decide.mpr (by omega)
    · simp [hc]
  simp only [h1]
  rw [partition_countP _ (List.nodup_dedup _) (hired rs)
    (fun r => r.application_month) _]
  exact countP_of_mem_all _ _ _ _
    (fun a ha => List.mem_dedup.mpr (List.mem_map_of_mem _ ha))

/-- Window membership over offsets `0 .. n-1` of the same cohort: summing the
per-offset bracket counts counts the hired rows whose hire month lies within
`[application_month, application_month + n)`. -/
lemma sum_bracket_count (rs : List ApplicationRecord) (n : Nat) :
    ((List.range n).map (fun k => bracket_count rs k)).sum
      = (hired rs).countP (fun r =>
          decide (r.application_month ≤ hireD r ∧
            hireD r < r.application_month + (n : Int))) := by
  induction n with
  | zero =>
    simp only [List.range_zero, List.map_nil, List.sum_nil]
    symm
    rw [List.countP_eq_zero]
    intro a _
    simp only [decide_eq_true_eq]
    omega
  | succ n ih =>
    rw [List.range_succ, List.map_append, List.sum_append, ih]
    simp only [List.map_cons, List.map_nil, List.sum_cons, List.sum_nil, add_zero]
    rw [bracket_count_eq_countP]
    rw [← countP_or_disjoint (hired rs)
      (fun r => decide (r.application_month ≤ hireD r ∧
        hireD r < r.application_month + (n : Int)))
      (fun r => decide (hireD r = r.application_month + (n : Int)))
      (by
        intro a _ h1
        simp only [decide_eq_true_eq] at h1
        simp only [decide_eq_false_iff_not]
        omega)]
    apply countP_ext
    intro a _
    rw [← Bool.decide_or]
    apply decide_eq_decide.mpr
    push_cast
    omega

lemma sum_map_div {β : Type} (l : List β) (f : β → ℚ) (T : ℚ) :
    (l.map (fun x => f x / T)).sum = (l.map f).sum / T := by
  induction l with
  | nil => simp
  | cons a t ih => simp [ih, add_div]

/-- Closed form of the sum of the returned brackets. -/
lemma sum_compute_time_to_hire (rs : List ApplicationRecord) (n : Nat) :
    (compute_time_to_hire rs n).sum =
      if 0 < total_hires rs
      then ((hired rs).countP (fun r =>
          decide (r.application_month ≤ hireD r ∧
            hireD r < r.application_month + (n : Int))) : ℚ) / (total_hires rs : ℚ)
      else 0 := by
  unfold compute_time_to_hire
  by_cases h : 0 < total_hires rs
  · simp only [h, if_true]
    rw [sum_map_div (List.range n) (fun k => (bracket_count rs k : ℚ)) (total_hires rs : ℚ)]
    rw [← sum_bracket_count rs n, Nat.cast_list_sum, List.map_map]
    rfl
  · simp [h]

lemma compute_scenarioA : compute_time_to_hire scenarioA 3 = [0, 1, 0] := by
  have h1 : total_hires scenarioA = 4 := by decide
  have h2 : bracket_count scenarioA 0 = 0 := by decide
  have h3 : bracket_count scenarioA 1 = 4 := by decide
  have h4 : bracket_count scenarioA 2 = 0 := by decide
  simp [compute_time_to_hire, List.range_succ, h1, h2, h3, h4]

/-- Claim C1 fails on the code: on Scenario A's input the source divides by
`total_hires = 4` (counted after dropping the never-hired rows, line 70 before
line 73 of src/app.py), not by the 10 applications, so the result is not
`[0.0, 0.4, 0.0]`. -/
theorem C1_counterexample : compute_time_to_hire scenarioA 3 ≠ [0, 2/5, 0] := by
  rw [compute_scenarioA]
  intro h
  simp only [List.cons.injEq] at h
  norm_num at h

/-- Claim C1 (amended): on Scenario A's input (10 January applications, 4
hired the following February, 6 never hired) `compute_time_to_hire` with
horizon 3 returns `[0.0, 1.0, 0.0]`, whose entries sum to `1.0`, because the
denominator `total_hires` counts only the records with a non-null hire date. -/
theorem C1_scenarioA_brackets :
    compute_time_to_hire scenarioA 3 = [0, 1, 0] ∧
    (compute_time_to_hire scenarioA 3).sum = 1 := by
  refine ⟨compute_scenarioA, ?_⟩
  rw [compute_scenarioA]
  norm_num

/-- Claim C2: the source's bracket computation agrees with the spec's §4.2
algorithm (discard null hire dates, group by application month, count each
cohort's hires per half-open month window, accumulate across cohorts, divide
by `totalHires`, all-zero when `totalHires == 0`). -/
theorem C2_compute_matches_spec (rs : List ApplicationRecord) (n : Nat) :
    compute_time_to_hire rs n = computeBrackets_spec rs n := by
  simp only [compute_time_to_hire, computeBrackets_spec]
  apply List.map_congr_left
  intro k _
  have hcount : bracket_count rs k =
      (((rs.filter (fun r => r.hire_month.isSome)).map
          (fun r => r.application_month)).dedup.map (fun c =>
        ((rs.filter (fun r => r.hire_month.isSome)).filter
            (fun r => decide (r.application_month = c))).countP
          (fun r => decide (c + (k : Int) ≤ hireD r ∧
            hireD r < c + (k : Int) + 1)))).sum := by
    unfold bracket_count windowCount cohortKeys hired
    congr 1
    apply List.map_congr_left
    intro c _
    rw [List.countP_eq_length_filter]
    congr 1
    apply List.filter_congr
    intro r _
    exact decide_eq_decide.mpr (by omega)
  rw [← hcount]
  unfold total_hires hired
  by_cases h : (rs.filter (fun r => r.hire_month.isSome)).length = 0
  · simp [h]
  · simp [h, Nat.pos_of_ne_zero h]

/-- Claim C3: `compute_time_to_hire` always returns a vector of the requested
length, all-zero when no record has a non-null hire date, and with every
entry in `[0, 1]` when at least one record does; in particular it is total
(no exception) on the empty table. -/
theorem C3_computeBrackets_shape (rs : List ApplicationRecord) (n : Nat) :
    (compute_time_to_hire rs n).length = n ∧
    (total_hires rs = 0 → compute_time_to_hire rs n = List.replicate n 0) ∧
    (0 < total_hires rs → ∀ x ∈ compute_time_to_hire rs n, 0 ≤ x ∧ x ≤ 1) := by
  refine ⟨by simp [compute_time_to_hire], ?_, ?_⟩
  · intro h
    apply List.eq_replicate_iff.mpr
    refine ⟨by simp [compute_time_to_hire], ?_⟩
    intro x hx
    simp only [compute_time_to_hire] at hx
    obtain ⟨k, _, rfl⟩ := List.mem_map.mp hx
    simp [h]
  · intro h x hx
    simp only [compute_time_to_hire] at hx
    obtain ⟨k, _, rfl⟩ := List.mem_map.mp hx
    rw [if_pos h]
    constructor
    · exact div_nonneg (Nat.cast_nonneg _) (Nat.cast_nonneg _)
    · rw [div_le_one (by exact_mod_cast h)]
      have hle : bracket_count rs k ≤ total_hires rs := by
        rw [bracket_count_eq_countP]
        exact List.countP_le_length _
      exact_mod_cast hle

/-- Witness for C3 at Scenario A's input and at the empty table. -/
theorem C3_witness :
    (compute_time_to_hire scenarioA 3).length = 3 ∧
    (∀ x ∈ compute_time_to_hire scenarioA 3, 0 ≤ x ∧ x ≤ 1) ∧
    compute_time_to_hire [] 3 = List.replicate 3 0 :=
  ⟨(C3_computeBrackets_shape scenarioA 3).1,
   (C3_computeBrackets_shape scenarioA 3).2.2 (by decide),
   (C3_computeBrackets_shape [] 3).2.1 (by decide)⟩

-- Input for the C4 counterexample: one record, never hired.
def neverHired : List ApplicationRecord := [⟨0, none⟩]

/-- Claim C4 fails on the code as stated: with a single never-hired record and
horizon 1 every record with a non-null hire date (there are none) trivially
falls inside the window, yet the returned sum is `0`, not `1` — the claimed
equivalence needs at least one hired record. -/
theorem C4_counterexample :
    (∀ r ∈ neverHired, ∀ h : Int, r.hire_month = some h →
      r.application_month ≤ h ∧ h < r.application_month + (1 : Int)) ∧
    (compute_time_to_hire neverHired 1).sum ≠ 1 := by
  constructor
  · intro r hr h hh
    simp only [neverHired, List.mem_singleton] at hr
    rw [hr] at hh
    simp at hh
  · have hv : compute_time_to_hire neverHired 1 = [0] := by
      simp [compute_time_to_hire, neverHired, total_hires, hired, List.range_succ]
    rw [hv]
    norm_num

/-- Claim C4 (amended): the sum of the returned brackets is at most 1 for
every input, and when at least one record has a non-null hire date the sum
equals 1 iff every record with a non-null hire date has its hire month at an
offset within `[0, horizon)` of its application month. -/
theorem C4_sum_le_one (rs : List ApplicationRecord) (n : Nat) :
    (compute_time_to_hire rs n).sum ≤ 1 ∧
    (0 < total_hires rs →
      ((compute_time_to_hire rs n).sum = 1 ↔
        ∀ r ∈ rs, ∀ h : Int, r.hire_month = some h →
          r.application_month ≤ h ∧ h < r.application_month + (n : Int))) := by
  have hwin : ((hired rs).countP (fun r =>
      decide (r.application_month ≤ hireD r ∧
        hireD r < r.application_month + (n : Int))) = total_hires rs) ↔
      (∀ r ∈ rs, ∀ h : Int, r.hire_month = some h →
        r.application_month ≤ h ∧ h < r.application_month + (n : Int)) := by
    unfold total_hires
    rw [List.countP_eq_length]
    constructor
    · intro hall r hr h hh
      have hmem : r ∈ hired rs :=
        List.mem_filter.mpr ⟨hr, by simp [hh]⟩
      have := hall r hmem
      simp only [decide_eq_true_eq] at this
      have hd : hireD r = h := by simp [hireD, hh]
      rw [hd] at this
      exact this
    · intro hall a ha
      have hmem := List.mem_filter.mp ha
      obtain ⟨h, hh⟩ := Option.isSome_iff_exists.mp hmem.2
      have := hall a hmem.1 h hh
      simp only [decide_eq_true_eq]
      have hd : hireD a = h := by simp [hireD, hh]
      rw [hd]
      exact this
  rw [sum_compute_time_to_hire]
  by_cases h : 0 < total_hires rs
  · rw [if_pos h]
    have hle : (hired rs).countP (fun r =>
        decide (r.application_month ≤ hireD r ∧
          hireD r < r.application_month + (n : Int))) ≤ total_hires rs :=
      List.countP_le_length _
    have hT : (total_hires rs : ℚ) ≠ 0 := by
      exact_mod_cast Nat.pos_iff_ne_zero.mp h
    constructor
    · rw [div_le_one (by exact_mod_cast h)]
      exact_mod_cast hle
    · intro _
      rw [div_eq_one_iff_eq hT, Nat.cast_inj]
      exact hwin
  · rw [if_neg h]
    exact ⟨by norm_num, fun hpos => absurd hpos h⟩

/-- Witness for C4 at Scenario A's input. -/
theorem C4_witness :
    (compute_time_to_hire scenarioA 3).sum ≤ 1 ∧
    ((compute_time_to_hire scenarioA 3).sum = 1 ↔
      ∀ r ∈ scenarioA, ∀ h : Int, r.hire_month = some h →
        r.application_month ≤ h ∧ h < r.application_month + (3 : Int)) :=
  ⟨(C4_sum_le_one scenarioA 3).1, (C4_sum_le_one scenarioA 3).2 (by decide)⟩

/-- The month-name strings in display order (`month_lookup` in src/app.py). -/
def month_lookup : List String :=
  ["Jan", "Feb", "Mar", "Apr", "May", "Jun", "Jul", "Aug", "Sep", "Oct", "Nov", "Dec"]

/-- Calendar month-name (`strftime("%b")`) of an absolute month index. -/
def monthName (m : Int) : String := month_lookup.getD (m % 12).toNat ""

/-- Brackets are all zero whenever no record has a non-null hire date. -/
lemma compute_of_total_zero (rs : List ApplicationRecord) (n : Nat)
    (h : total_hires rs = 0) :
    compute_time_to_hire rs n = List.replicate n 0 := by
  apply List.eq_replicate_iff.mpr
  refine ⟨by simp [compute_time_to_hire], ?_⟩
  intro x hx
  simp only [compute_time_to_hire] at hx
  obtain ⟨k, _, rfl⟩ := List.mem_map.mp hx
  simp [h]

/-- Shallow embedding of the `month_wise_brackets` table (src/app.py lines
84-88): one entry per month-name, holding `compute_time_to_hire` of the rows
whose application month-name matches, or a zero vector when none match. -/
def month_wise_brackets (rs : List ApplicationRecord) : List (String × List ℚ) :=
  month_lookup.map (fun mn =>
    (mn,
      if (rs.filter (fun r => decide (monthName r.application_month = mn))).isEmpty
      then List.replicate 12 (0 : ℚ)
      else compute_time_to_hire
        (rs.filter (fun r => decide (monthName r.application_month = mn))) 12))

/-- Claim C5: the month-name table has exactly the 12 keys Jan..Dec in order;
each value is the bracket vector of the subset of records with that
application month-name, and an empty subset yields the all-zero vector. -/
theorem C5_month_table (rs : List ApplicationRecord) :
    ((month_wise_brackets rs).map Prod.fst = month_lookup) ∧
    (∀ p ∈ month_wise_brackets rs,
      p.2 = compute_time_to_hire
        (rs.filter (fun r => decide (monthName r.application_month = p.1))) 12 ∧
      (rs.filter (fun r => decide (monthName r.application_month = p.1)) = [] →
        p.2 = List.replicate 12 0)) := by
  constructor
  · rfl
  · intro p hp
    simp only [month_wise_brackets, List.mem_map] at hp
    obtain ⟨mn, _, rfl⟩ := hp
    constructor
    · by_cases he :
        (rs.filter (fun r => decide (monthName r.application_month = mn))).isEmpty
      · have hnil := List.isEmpty_iff.mp he
        simp only [if_pos he, hnil]
        exact (compute_of_total_zero [] 12 rfl).symm
      · simp [he]
    · intro hnil
      simp [hnil]

/-- Witness for C5 at a concrete input with one never-hired January record:
the key list is Jan..Dec and the Feb entry equals the brackets of the empty
Feb subset. -/
theorem C5_witness :
    (month_wise_brackets neverHired).map Prod.fst = month_lookup ∧
    (("Feb", List.replicate 12 (0 : ℚ)) : String × List ℚ).2 =
      compute_time_to_hire
        (neverHired.filter (fun r => decide (monthName r.application_month =
          (("Feb", List.replicate 12 (0 : ℚ)) : String × List ℚ).1))) 12 :=
  ⟨(C5_month_table neverHired).1,
   ((C5_month_table neverHired).2 ("Feb", List.replicate 12 0) (by decide)).1⟩

/-- Row of the filtered, month-truncated hire aggregate table
(`hire_df` in src/app.py): a hire month together with its hire count. -/
structure HireAggregate where
  hire_month : Int
  hires : Nat
  deriving DecidableEq

/-- Row of the aggregated spend table (`spend_df`): a spend month together
with its total monthly spend. -/
structure SpendRecord where
  spend_month : Int
  monthly_spend : ℚ
  deriving DecidableEq

/-- Row of the CAC result table as computed (src/app.py lines 176-191),
before display formatting: the rounding and `strftime` of lines 186-191 only
affect the rendered strings. -/
structure CACResult where
  hire_month : Int
  hires : Nat
  weighted_spend : ℚ
  cac : Option ℚ
  deriving DecidableEq

/-- Distinct hire months, ascending
(`sorted(hire_df['hire_month'].dropna().unique())`). -/
def sortedHireMonths (hs : List HireAggregate) : List Int :=
  List.insertionSort (fun a b => a ≤ b) ((hs.map (fun r => r.hire_month)).dedup)

/-- Summed hires for one hire month
(`int(hire_df[hire_df['hire_month'] == hire_month]['hires'].sum())`). -/
def hiresFor (hs : List HireAggregate) (m : Int) : Nat :=
  ((hs.filter (fun r => decide (r.hire_month = m))).map (fun r => r.hires)).sum

/-- Spend attributed to one month, zero when absent
(`spend_df[spend_df['spend_month'] == spend_month]['monthly_spend'].sum()`). -/
def spendFor (sp : List SpendRecord) (m : Int) : ℚ :=
  ((sp.filter (fun s => decide (s.spend_month = m))).map
    (fun s => s.monthly_spend)).sum

/-- Kernel weight lookup (`month_wise_brackets.get(month_name, [0]*12)[i]`);
the bracket vectors in the program always have length 12, so the positional
default of `getD` is never reached there. -/
def kernelWeight (kt : List (String × List ℚ)) (name : String) (i : Nat) : ℚ :=
  ((kt.lookup name).getD (List.replicate 12 0)).getD i 0

/-- Accumulated `weighted_spend` for one hire month: twelve look-back months
of spend, each weighted by the kernel entry of that spend month's name at the
corresponding offset. -/
def weighted_spend (sp : List SpendRecord) (kt : List (String × List ℚ))
    (m : Int) : ℚ :=
  ((List.range 12).map (fun (i : Nat) =>
    spendFor sp (m - (i : Int)) * kernelWeight kt (monthName (m - (i : Int))) i)).sum

/-- One row of the Cost Calculator loop body for hire month `m`:
`cac = weighted_spend / hires if hires > 0 else None`. -/
def cacRow (hs : List HireAggregate) (sp : List SpendRecord)
    (kt : List (String × List ℚ)) (m : Int) : CACResult :=
  { hire_month := m,
    hires := hiresFor hs m,
    weighted_spend := weighted_spend sp kt m,
    cac := if 0 < hiresFor hs m
           then some (weighted_spend sp kt m / (hiresFor hs m : ℚ))
           else none }

/-- Shallow embedding of the `cac_rows` loop (src/app.py lines 174-191): one
result row per distinct hire month, in ascending order. -/
def cac_rows (hs : List HireAggregate) (sp : List SpendRecord)
    (kt : List (String × List ℚ)) : List CACResult :=
  (sortedHireMonths hs).map (cacRow hs sp kt)

-- Scenario C input: hire month 2024-03 is index 26 under an epoch placed at
-- January of year two (26 % 12 = 2, name "Mar"); spend 100/200/300 for the
-- three preceding indices 24/25/26; kernel weights 0.1/0.3/0.5 for
-- Jan/Feb/Mar at offsets 2/1/0.
def scenarioC_hires : List HireAggregate := [⟨26, 10⟩]

def scenarioC_spend : List SpendRecord := [⟨24, 100⟩, ⟨25, 200⟩, ⟨26, 300⟩]

def scenarioC_kernel : List (String × List ℚ) :=
  [("Mar", [1/2, 0, 0, 0, 0, 0, 0, 0, 0, 0, 0, 0]),
   ("Feb", [0, 3/10, 0, 0, 0, 0, 0, 0, 0, 0, 0, 0]),
   ("Jan", [0, 0, 1/10, 0, 0, 0, 0, 0, 0, 0, 0, 0])]

/-- Claim C6: every produced row's weighted spend is the 12-month look-back
sum of spend times the kernel weight of the spend month's name at the
corresponding offset (absent spend months contributing 0), and its CAC is
weighted spend divided by hires when hires are positive; at Scenario C's
input the single row is hire month 2024-03, 10 hires, weighted spend 220,
CAC 22.0. -/
theorem C6_weighted_spend_formula :
    (∀ (hs : List HireAggregate) (sp : List SpendRecord)
        (kt : List (String × List ℚ)) (r : CACResult), r ∈ cac_rows hs sp kt →
      r.weighted_spend = ((List.range 12).map (fun (i : Nat) =>
        spendFor sp (r.hire_month - (i : Int)) *
          kernelWeight kt (monthName (r.hire_month - (i : Int))) i)).sum ∧
      (0 < r.hires → r.cac = some (r.weighted_spend / (r.hires : ℚ)))) ∧
    cac_rows scenarioC_hires scenarioC_spend scenarioC_kernel =
      [{ hire_month := 26, hires := 10, weighted_spend := 220,
         cac := some 22 }] := by
  constructor
  · intro hs sp kt r hr
    simp only [cac_rows] at hr
    obtain ⟨m, _, rfl⟩ := List.mem_map.mp hr
    refine ⟨rfl, ?_⟩
    intro hpos
    have hp2 : 0 < hiresFor hs m := hpos
    show (if 0 < hiresFor hs m
          then some (weighted_spend sp kt m / (hiresFor hs m : ℚ))
          else none) = _
    rw [if_pos hp2]
    rfl
  · have hsm : sortedHireMonths scenarioC_hires = [26] := by decide
    have hh : hiresFor scenarioC_hires 26 = 10 := by decide
    have m0 : monthName 26 = "Mar" := rfl
    have m1 : monthName 25 = "Feb" := rfl
    have m2 : monthName 24 = "Jan" := rfl
    have m3 : monthName 23 = "Dec" := rfl
    have m4 : monthName 22 = "Nov" := rfl
    have m5 : monthName 21 = "Oct" := rfl
    have m6 : monthName 20 = "Sep" := rfl
    have m7 : monthName 19 = "Aug" := rfl
    have m8 : monthName 18 = "Jul" := rfl
    have m9 : monthName 17 = "Jun" := rfl
    have m10 : monthName 16 = "May" := rfl
    have m11 : monthName 15 = "Apr" := rfl
    have kw0 : kernelWeight scenarioC_kernel "Mar" 0 = 1/2 := rfl
    have kw1 : kernelWeight scenarioC_kernel "Feb" 1 = 3/10 := rfl
    have kw2 : kernelWeight scenarioC_kernel "Jan" 2 = 1/10 := rfl
    have kw3 : kernelWeight scenarioC_kernel "Dec" 3 = 0 := rfl
    have kw4 : kernelWeight scenarioC_kernel "Nov" 4 = 0 := rfl
    have kw5 : kernelWeight scenarioC_kernel "Oct" 5 = 0 := rfl
    have kw6 : kernelWeight scenarioC_kernel "Sep" 6 = 0 := rfl
    have kw7 : kernelWeight scenarioC_kernel "Aug" 7 = 0 := rfl
    have kw8 : kernelWeight scenarioC_kernel "Jul" 8 = 0 := rfl
    have kw9 : kernelWeight scenarioC_kernel "Jun" 9 = 0 := rfl
    have kw10 : kernelWeight scenarioC_kernel "May" 10 = 0 := rfl
    have kw11 : kernelWeight scenarioC_kernel "Apr" 11 = 0 := rfl
    have hws : weighted_spend scenarioC_spend scenarioC_kernel 26 = 220 := by
      norm_num [weighted_spend, List.range_succ, spendFor, scenarioC_spend,
        m0, m1, m2, m3, m4, m5, m6, m7, m8, m9, m10, m11,
        kw0, kw1, kw2, kw3, kw4, kw5, kw6, kw7, kw8, kw9, kw10, kw11]
    simp only [cac_rows, hsm, List.map_cons, List.map_nil, cacRow, hh, hws]
    norm_num

/-- Witness for C6's universal part at Scenario C's row. -/
theorem C6_witness :
    (cacRow scenarioC_hires scenarioC_spend scenarioC_kernel 26).cac =
      some ((cacRow scenarioC_hires scenarioC_spend scenarioC_kernel 26).weighted_spend /
        ((cacRow scenarioC_hires scenarioC_spend scenarioC_kernel 26).hires : ℚ)) := by
  have hsm : sortedHireMonths scenarioC_hires = [26] := by decide
  have hmem : cacRow scenarioC_hires scenarioC_spend scenarioC_kernel 26 ∈
      cac_rows scenarioC_hires scenarioC_spend scenarioC_kernel := by
    simp only [cac_rows, hsm, List.map_cons, List.map_nil]
    exact List.mem_singleton.mpr rfl
  exact (C6_weighted_spend_formula.1 _ _ _ _ hmem).2 (by decide)

/-- Claim C7: a produced row whose summed hires are zero reports an undefined
CAC (`None`, rendered "N/A"), with no division performed. -/
theorem C7_zero_hires_no_fault (hs : List HireAggregate) (sp : List SpendRecord)
    (kt : List (String × List ℚ)) (r : CACResult) (hr : r ∈ cac_rows hs sp kt)
    (h0 : r.hires = 0) : r.cac = none := by
  simp only [cac_rows] at hr
  obtain ⟨m, _, rfl⟩ := List.mem_map.mp hr
  have h0m : hiresFor hs m = 0 := h0
  show (if 0 < hiresFor hs m
        then some (weighted_spend sp kt m / (hiresFor hs m : ℚ))
        else none) = none
  rw [if_neg (by omega)]

-- Scenario D input: one hire month with zero attributed hires, reached via a
-- spend row whose weights are all zero (empty kernel table).
def scenarioD_hires : List HireAggregate := [⟨5, 0⟩]

def scenarioD_spend : List SpendRecord := [⟨5, 50⟩]

/-- Witness for C7 at Scenario D's input. -/
theorem C7_witness :
    (cacRow scenarioD_hires scenarioD_spend [] 5).cac = none := by
  have hsm : sortedHireMonths scenarioD_hires = [5] := by decide
  have hmem : cacRow scenarioD_hires scenarioD_spend [] 5 ∈
      cac_rows scenarioD_hires scenarioD_spend [] := by
    simp only [cac_rows, hsm, List.map_cons, List.map_nil]
    exact List.mem_singleton.mpr rfl
  exact C7_zero_hires_no_fault _ _ _ _ hmem (by decide)

/-- Claim C8: the CAC table is a function of input content, not row order —
permuting the hire-aggregate rows and the spend rows leaves the result
unchanged — and its rows are sorted ascending by hire month. -/
theorem C8_cac_order_independent (hs hs2 : List HireAggregate)
    (sp sp2 : List SpendRecord) (kt : List (String × List ℚ))
    (hp : hs.Perm hs2) (hq : sp.Perm sp2) :
    cac_rows hs sp kt = cac_rows hs2 sp2 kt ∧
    List.Sorted (fun a b => a ≤ b)
      ((cac_rows hs sp kt).map (fun r => r.hire_month)) := by
  have hmonths : sortedHireMonths hs = sortedHireMonths hs2 := by
    refine List.eq_of_perm_of_sorted ?_
      (List.sorted_insertionSort _ _) (List.sorted_insertionSort _ _)
    exact (List.perm_insertionSort _ _).trans
      (((hp.map _).dedup).trans (List.perm_insertionSort _ _).symm)
  have hhires : ∀ m, hiresFor hs m = hiresFor hs2 m :=
    fun m => ((hp.filter _).map _).sum_eq
  have hspend : ∀ m, spendFor sp m = spendFor sp2 m :=
    fun m => ((hq.filter _).map _).sum_eq
  have hws : ∀ m, weighted_spend sp kt m = weighted_spend sp2 kt m := by
    intro m
    unfold weighted_spend
    congr 1
    apply List.map_congr_left
    intro i _
    rw [hspend]
  constructor
  · unfold cac_rows
    rw [hmonths]
    apply List.map_congr_left
    intro m _
    unfold cacRow
    rw [hhires m, hws m]
  · unfold cac_rows
    rw [List.map_map,
      show ((fun r : CACResult => r.hire_month) ∘ cacRow hs sp kt) = id from rfl,
      List.map_id]
    exact List.sorted_insertionSort _ _

-- Concrete permuted inputs for the C8, C9 and C10 witnesses.
def cacPermA : List HireAggregate := [⟨1, 2⟩, ⟨0, 3⟩]

def cacPermB : List HireAggregate := [⟨0, 3⟩, ⟨1, 2⟩]

def cacSpendW : List SpendRecord := [⟨0, 5⟩]

/-- Witness for C8 at a concrete transposed pair of hire tables. -/
theorem C8_witness :
    cac_rows cacPermA cacSpendW [] = cac_rows cacPermB cacSpendW [] ∧
    List.Sorted (fun a b => a ≤ b)
      ((cac_rows cacPermA cacSpendW []).map (fun r => r.hire_month)) :=
  C8_cac_order_independent cacPermA cacPermB cacSpendW cacSpendW []
    (List.Perm.swap _ _ _) (List.Perm.refl _)

/-- Claim C9: the CAC table has exactly one row per distinct hire month of
the hire-aggregate input — its hire-month column is duplicate-free and a
month appears in it iff it appears in the hire input, so months appearing
only in the spend table produce no row. -/
theorem C9_one_row_per_month (hs : List HireAggregate) (sp : List SpendRecord)
    (kt : List (String × List ℚ)) :
    ((cac_rows hs sp kt).map (fun r => r.hire_month)).Nodup ∧
    (∀ m : Int, m ∈ (cac_rows hs sp kt).map (fun r => r.hire_month) ↔
      m ∈ hs.map (fun r => r.hire_month)) := by
  have hmap : (cac_rows hs sp kt).map (fun r => r.hire_month) =
      sortedHireMonths hs := by
    unfold cac_rows
    rw [List.map_map,
      show ((fun r : CACResult => r.hire_month) ∘ cacRow hs sp kt) = id from rfl,
      List.map_id]
  rw [hmap]
  constructor
  · exact ((List.perm_insertionSort _ _).nodup_iff).mpr (List.nodup_dedup _)
  · intro m
    unfold sortedHireMonths
    rw [(List.perm_insertionSort _ _).mem_iff, List.mem_dedup]

/-- Witness for C9 at a concrete input. -/
theorem C9_witness :
    ((cac_rows cacPermA cacSpendW []).map (fun r => r.hire_month)).Nodup ∧
    ((5 : Int) ∈ (cac_rows cacPermA cacSpendW []).map (fun r => r.hire_month) ↔
      (5 : Int) ∈ cacPermA.map (fun r => r.hire_month)) :=
  ⟨(C9_one_row_per_month cacPermA cacSpendW []).1,
   (C9_one_row_per_month cacPermA cacSpendW []).2 5⟩

/-- Claim C10: when every hire-aggregate row carries at least one hire, every
produced row has strictly positive summed hires and a defined numeric CAC —
the "N/A" branch is unreachable. -/
theorem C10_positive_hires (hs : List HireAggregate) (sp : List SpendRecord)
    (kt : List (String × List ℚ)) (hpos : ∀ r ∈ hs, 1 ≤ r.hires) :
    ∀ row ∈ cac_rows hs sp kt, 0 < row.hires ∧
      row.cac = some (row.weighted_spend / (row.hires : ℚ)) := by
  intro row hrow
  simp only [cac_rows] at hrow
  obtain ⟨m, hm, rfl⟩ := List.mem_map.mp hrow
  have hm2 : m ∈ hs.map (fun r => r.hire_month) := by
    rw [← List.mem_dedup]
    exact (List.perm_insertionSort _ _).mem_iff.mp hm
  obtain ⟨r, hr, hrm⟩ := List.mem_map.mp hm2
  have hrfilter : r ∈ hs.filter (fun x => decide (x.hire_month = m)) :=
    List.mem_filter.mpr ⟨hr, by simp [hrm]⟩
  have hle : r.hires ≤ hiresFor hs m :=
    List.le_sum_of_mem (List.mem_map_of_mem _ hrfilter)
  have h1 : 0 < hiresFor hs m := lt_of_lt_of_le (hpos r hr) hle
  refine ⟨h1, ?_⟩
  show (if 0 < hiresFor hs m
        then some (weighted_spend sp kt m / (hiresFor hs m : ℚ))
        else none) = _
  rw [if_pos h1]
  rfl

/-- Witness for C10 at a concrete input whose rows all have positive hires. -/
theorem C10_witness :
    0 < (cacRow cacPermA cacSpendW [] 0).hires ∧
    (cacRow cacPermA cacSpendW [] 0).cac =
      some ((cacRow cacPermA cacSpendW [] 0).weighted_spend /
        ((cacRow cacPermA cacSpendW [] 0).hires : ℚ)) := by
  have hsm : sortedHireMonths cacPermA = [0, 1] := by decide
  have hmem : cacRow cacPermA cacSpendW [] 0 ∈ cac_rows cacPermA cacSpendW [] := by
    simp only [cac_rows, hsm, List.map_cons, List.map_nil]
    exact List.mem_cons_self _ _
  exact C10_positive_hires cacPermA cacSpendW [] (by decide) _ hmem
